import Mathlib

/-!
Verification of the langpack synchronizer and asset publisher of the
azuredatastudio build tooling.

The definitions below are a shallow embedding of the TypeScript sources
`build/azure-pipelines/common/createAsset.ts` and `build/lib/locFunc.ts`.
JavaScript objects whose keys are iterated in insertion order are modelled
as association lists (`List (String × _)`); JavaScript `throw` is modelled
with `Except`; filesystem and network effects are modelled by explicit
parameters and by result records counting the performed effect calls.
-/

namespace CreateAsset

/-- Error text for the `Unrecognized:` throw in `getPlatform`
(template literal from createAsset.ts). -/
def unrecognizedMsg (product os arch ty : String) : String :=
  "Unrecognized: " ++ product ++ " " ++ os ++ " " ++ arch ++ " " ++ ty

/-- Error text for the darwin/web throw in `getPlatform`. -/
def whatPlatformMsg (product os arch ty : String) : String :=
  "What should the platform be?: " ++ product ++ " " ++ os ++ " " ++ arch ++ " " ++ ty

/-- Shallow embedding of `getPlatform` from createAsset.ts (lines 34-105).
A JavaScript `throw` is modelled as `Except.error`. -/
def getPlatform (product os arch ty : String) : Except String String :=
  if os = "win32" then
    if product = "client" then
      let asset := if arch = "ia32" then "win32" else "win32-" ++ arch
      if ty = "archive" then .ok (asset ++ "-archive")
      else if ty = "setup" then .ok asset
      else if ty = "user-setup" then .ok (asset ++ "-user")
      else .error (unrecognizedMsg product os arch ty)
    else if product = "server" then
      if arch = "arm64" then .error (unrecognizedMsg product os arch ty)
      else if arch = "ia32" then .ok "server-win32"
      else .ok ("server-win32-" ++ arch)
    else if product = "web" then
      if arch = "arm64" then .error (unrecognizedMsg product os arch ty)
      else if arch = "ia32" then .ok "server-win32-web"
      else .ok ("server-win32-" ++ arch ++ "-web")
    else .error (unrecognizedMsg product os arch ty)
  else if os = "linux" then
    if ty = "snap" then .ok ("linux-snap-" ++ arch)
    else if ty = "archive-unsigned" then
      if product = "client" then .ok ("linux-" ++ arch)
      else if product = "server" then .ok ("server-linux-" ++ arch)
      else if product = "web" then
        if arch = "standalone" then .ok "web-standalone"
        else .ok ("server-linux-" ++ arch ++ "-web")
      else .error (unrecognizedMsg product os arch ty)
    else if ty = "deb-package" then .ok ("linux-deb-" ++ arch)
    else if ty = "rpm-package" then .ok ("linux-rpm-" ++ arch)
    else .error (unrecognizedMsg product os arch ty)
  else if os = "darwin" then
    if product = "client" then
      if arch = "x64" then .ok "darwin"
      else .ok ("darwin-" ++ arch)
    else if product = "server" then .ok "server-darwin"
    else if product = "web" then
      if arch ≠ "x64" then .error (whatPlatformMsg product os arch ty)
      else .ok "server-darwin-web"
    else .error (unrecognizedMsg product os arch ty)
  else .error (unrecognizedMsg product os arch ty)

/-- Shallow embedding of `getRealType` from createAsset.ts (lines 108-118). -/
def getRealType (ty : String) : String :=
  if ty = "user-setup" then "setup"
  else if ty = "deb-package" then "package"
  else if ty = "rpm-package" then "package"
  else ty

/-- Modelled from the spec: the fixed decision table of `getPlatform` — the set
of `(product, os, arch, type)` combinations to which the spec's platform
mapping table assigns a platform string.  Every combination outside this
table is, per the spec, an unrecoverable configuration error. -/
def platformTableSpec (product os arch ty : String) : Bool :=
  if os = "win32" then
    if product = "client" then ty = "archive" ∨ ty = "setup" ∨ ty = "user-setup"
    else if product = "server" then arch ≠ "arm64"
    else if product = "web" then arch ≠ "arm64"
    else false
  else if os = "linux" then
    if ty = "snap" then true
    else if ty = "archive-unsigned" then
      product = "client" ∨ product = "server" ∨ product = "web"
    else ty = "deb-package" ∨ ty = "rpm-package"
  else if os = "darwin" then
    if product = "client" then true
    else if product = "server" then true
    else if product = "web" then arch = "x64"
    else false
  else false

theorem getPlatform_ok_iff_table (product os arch ty : String) :
    (getPlatform product os arch ty).isOk = platformTableSpec product os arch ty := by
  unfold getPlatform platformTableSpec
  split_ifs <;> simp_all [Except.isOk, Except.toBool]

end CreateAsset

namespace CreateAsset

/-- Characters of the pattern `win32`, the regular expression tested by
`/win32/.test(platform)` in createAsset.ts line 236. -/
def w32 : List Char := ['w', 'i', 'n', '3', '2']

/-- Boolean substring test modelling the JavaScript `/win32/.test(s)`. -/
def containsWin32 (s : String) : Bool := decide (w32 <:+: s.data)

theorem containsWin32_eq_true {s : String} :
    containsWin32 s = true ↔ w32 <:+: s.data := by
  simp [containsWin32]

theorem containsWin32_eq_false {s : String} :
    containsWin32 s = false ↔ ¬ w32 <:+: s.data := by
  simp [containsWin32]

theorem infix_append_ext {l a : List Char} (b : List Char) (h : l <:+: a) :
    l <:+: a ++ b := by
  obtain ⟨s, t, hh⟩ := h
  exact ⟨s, t ++ b, by rw [← hh]; simp⟩

theorem head_notMem_shift {c : Char} {p b : List Char} (a : List Char) (hc : c ∉ a)
    (h : (c :: p) <:+: a ++ b) : (c :: p) <:+: b := by
  induction a with
  | nil => simpa using h
  | cons x a ih =>
    rw [List.cons_append] at h
    rcases List.infix_cons_iff.mp h with hp | hi
    · rcases List.cons_prefix_cons.mp hp with ⟨hcx, -⟩
      exact absurd (by rw [hcx]; exact List.mem_cons_self x a) hc
    · exact ih (fun hm => hc (List.mem_cons_of_mem _ hm)) hi

theorem last_notMem_shift {c : Char} {p a : List Char} (b : List Char) (hc : c ∉ b)
    (h : (p ++ [c]) <:+: a ++ b) : (p ++ [c]) <:+: a := by
  have h2 : (c :: p.reverse) <:+: b.reverse ++ a.reverse := by
    simpa [List.reverse_append] using ( List.reverse_infix).mpr h
  have h3 := head_notMem_shift b.reverse (by simpa using hc) h2
  apply ( List.reverse_infix).mp
  simpa [List.reverse_append] using h3

theorem containsWin32_true_append {a : String} (b : String)
    (ha : containsWin32 a = true) : containsWin32 (a ++ b) = true := by
  rw [containsWin32_eq_true] at ha ⊢
  rw [String.data_append]
  exact infix_append_ext _ ha

theorem containsWin32_false_noW {a b : String} (ha : 'w' ∉ a.data)
    (hb : containsWin32 b = false) : containsWin32 (a ++ b) = false := by
  rw [containsWin32_eq_false] at hb ⊢
  rw [String.data_append]
  intro h
  exact hb (by simpa [w32] using head_notMem_shift a.data ha (by simpa [w32] using h))

theorem containsWin32_false_no2 {a b : String} (hb : '2' ∉ b.data)
    (ha : containsWin32 a = false) : containsWin32 (a ++ b) = false := by
  rw [containsWin32_eq_false] at ha ⊢
  rw [String.data_append]
  intro h
  have h2 : (['w', 'i', 'n', '3'] ++ ['2'] : List Char) <:+: a.data ++ b.data := by
    simpa [w32] using h
  exact ha (by simpa [w32] using last_notMem_shift b.data hb h2)

theorem not_prefix_of_head_ne {c d : Char} {p l : List Char} (h : c ≠ d) :
    ¬ (c :: p <+: d :: l) :=
  fun hp => h (List.cons_prefix_cons.mp hp).1

theorem containsWin32_false_darwin {b : String} (hb : containsWin32 b = false) :
    containsWin32 ("darwin-" ++ b) = false := by
  rw [containsWin32_eq_false] at hb ⊢
  rw [String.data_append]
  have e : "darwin-".data = ['d', 'a', 'r', 'w', 'i', 'n', '-'] := rfl
  rw [e]
  simp only [List.cons_append, List.nil_append, w32]
  intro hinf
  rcases List.infix_cons_iff.mp hinf with hp | hinf
  · exact not_prefix_of_head_ne (by decide) hp
  rcases List.infix_cons_iff.mp hinf with hp | hinf
  · exact not_prefix_of_head_ne (by decide) hp
  rcases List.infix_cons_iff.mp hinf with hp | hinf
  · exact not_prefix_of_head_ne (by decide) hp
  rcases List.infix_cons_iff.mp hinf with hp | hinf
  · rcases List.cons_prefix_cons.mp hp with ⟨-, hp⟩
    rcases List.cons_prefix_cons.mp hp with ⟨-, hp⟩
    rcases List.cons_prefix_cons.mp hp with ⟨-, hp⟩
    exact absurd (List.cons_prefix_cons.mp hp).1 (by decide)
  rcases List.infix_cons_iff.mp hinf with hp | hinf
  · exact not_prefix_of_head_ne (by decide) hp
  rcases List.infix_cons_iff.mp hinf with hp | hinf
  · exact not_prefix_of_head_ne (by decide) hp
  rcases List.infix_cons_iff.mp hinf with hp | hinf
  · exact not_prefix_of_head_ne (by decide) hp
  exact hb (by simpa [w32] using hinf)

/-- Characterization of the platform strings: for every successful
`getPlatform` result, provided the architecture string does not itself
contain `win32`, the result contains the substring `win32` exactly when the
`os` argument is `win32`. -/
theorem containsWin32_getPlatform (product os arch ty p : String)
    (harch : containsWin32 arch = false)
    (hok : getPlatform product os arch ty = .ok p) :
    containsWin32 p = (os == "win32") := by
  unfold getPlatform at hok
  split_ifs at hok <;>
    simp only [Except.ok.injEq, reduceCtorEq] at hok <;>
    subst hok <;> subst_vars <;>
    (try simp only [beq_self_eq_true]) <;>
    first
      | decide
      | (apply containsWin32_true_append
         first
           | decide
           | (apply containsWin32_true_append; decide))
      | (rw [show (("linux" : String) == "win32") = false from by decide]
         first
           | exact containsWin32_false_noW (by decide) harch
           | exact containsWin32_false_no2 (by decide)
               (containsWin32_false_noW (by decide) harch))
      | (rw [show (("darwin" : String) == "win32") = false from by decide]
         first
           | decide
           | exact containsWin32_false_darwin harch)

/-- Shallow embedding of the `Asset` record interface of createAsset.ts.
The optional `supportsFastUpdate` field is modelled as a `Bool` that is
`true` exactly when the source sets the field (lines 235-238). -/
structure Asset where
  platform : String
  type : String
  url : String
  mooncakeUrl : String
  hash : String
  sha256hash : String
  size : Nat
  supportsFastUpdate : Bool
  deriving Repr, DecidableEq

/-- Observable outcome of one run of `main()` in createAsset.ts: how many
blob uploads were performed (to either store), how many metadata-database
stored-procedure calls were made, which asset record was written (if any),
and the success/failure outcome of the returned promise. -/
structure MainResult where
  uploads : Nat
  procCalls : Nat
  asset : Option Asset
  outcome : Except String Unit

/-- Shallow embedding of `main()` from createAsset.ts (lines 159-247).
The process environment is the function `env`; `urlPathOf` abstracts the
external `url.parse(assetUrl).path`; `size`, `sha1hash` and `sha256hash`
abstract the file stat and the dual-hash stream results; `blobExists`
abstracts the answer of `doesAssetExist` on the primary container. -/
def mainRun (product os arch unprocessedType fileName : String)
    (env : String → Option String) (urlPathOf : String → String)
    (size : Nat) (sha1hash sha256hash : String) (blobExists : Bool) : MainResult :=
  match getPlatform product os arch unprocessedType with
  | .error e => { uploads := 0, procCalls := 0, asset := none, outcome := .error e }
  | .ok platform =>
    let ty := getRealType unprocessedType
    match env "VSCODE_QUALITY" with
    | none => { uploads := 0, procCalls := 0, asset := none,
                outcome := .error "Missing env: VSCODE_QUALITY" }
    | some quality =>
      match env "BUILD_SOURCEVERSION" with
      | none => { uploads := 0, procCalls := 0, asset := none,
                  outcome := .error "Missing env: BUILD_SOURCEVERSION" }
      | some commit =>
        let blobName := commit ++ "/" ++ fileName
        if blobExists then
          { uploads := 0, procCalls := 0, asset := none, outcome := .ok () }
        else
          let assetUrl := ((env "AZURE_CDN_URL").getD "undefined") ++ "/" ++
            quality ++ "/" ++ blobName
          let mooncakeUrl := ((env "MOONCAKE_CDN_URL").getD "undefined") ++
            urlPathOf assetUrl
          let asset : Asset :=
            { platform := platform, type := ty, url := assetUrl,
              mooncakeUrl := mooncakeUrl, hash := sha1hash,
              sha256hash := sha256hash, size := size,
              supportsFastUpdate := containsWin32 platform }
          { uploads := 2, procCalls := 1, asset := some asset, outcome := .ok () }

/-- Shallow embedding of the process-level wrapper of createAsset.ts: the
arity check on `process.argv` (lines 28-31, which runs before `main` and
exits with -1 printing a usage message) and the final `main().then` handler
(lines 249-255, exit code 0 on success and 1 on failure).  The result is
the process exit code paired with whether the usage message was printed. -/
def createAssetScript (argv : List String) (mainOutcome : Except String Unit) :
    Int × Bool :=
  if argv.length ≠ 8 then (-1, true)
  else
    match mainOutcome with
    | .ok _ => (0, false)
    | .error _ => (1, false)

/-- Sample environment providing only the two variables `main` requires. -/
def envSample : String → Option String := fun k =>
  if k = "VSCODE_QUALITY" then some "stable"
  else if k = "BUILD_SOURCEVERSION" then some "deadbeef"
  else none

end CreateAsset

/-- C6: publish idempotency.  If the blob `<commit>/<fileName>` already
exists in the primary store, `main()` performs zero blob uploads, zero
metadata stored-procedure calls, writes no asset record, and resolves
successfully; and conversely the upload/metadata steps are reached only
when the existence check returned `false`. -/
theorem C6_publish_idempotent :
    (∀ product os arch ty fileName env upath sz h1 h2 platform quality commit,
      CreateAsset.getPlatform product os arch ty = .ok platform →
      env "VSCODE_QUALITY" = some quality →
      env "BUILD_SOURCEVERSION" = some commit →
      CreateAsset.mainRun product os arch ty fileName env upath sz h1 h2 true =
        { uploads := 0, procCalls := 0, asset := none, outcome := .ok () }) ∧
    (∀ product os arch ty fileName env upath sz h1 h2 blobExists,
      (CreateAsset.mainRun product os arch ty fileName env upath sz h1 h2
          blobExists).uploads ≠ 0 ∨
      (CreateAsset.mainRun product os arch ty fileName env upath sz h1 h2
          blobExists).procCalls ≠ 0 →
      blobExists = false) := by
  constructor
  · intro product os arch ty fileName env upath sz h1 h2 platform quality commit
      hok hq hc
    unfold CreateAsset.mainRun
    rw [hok, hq, hc]
    simp
  · intro product os arch ty fileName env upath sz h1 h2 blobExists h
    cases blobExists
    · rfl
    · exfalso
      unfold CreateAsset.mainRun at h
      rcases hg : CreateAsset.getPlatform product os arch ty with e | platform <;>
        rw [hg] at h
      · simp at h
      · rcases hq : env "VSCODE_QUALITY" with _ | quality <;> rw [hq] at h
        · simp at h
        · rcases hc : env "BUILD_SOURCEVERSION" with _ | commit <;> rw [hc] at h
          · simp at h
          · simp at h

/-- Witness for C6 at a concrete input: client/win32/x64/setup with the
sample environment and an already-existing blob. -/
theorem C6_publish_idempotent_witness :
    CreateAsset.mainRun "client" "win32" "x64" "setup" "f.exe"
      CreateAsset.envSample id 7 "a" "b" true =
      { uploads := 0, procCalls := 0, asset := none, outcome := .ok () } :=
  C6_publish_idempotent.1 "client" "win32" "x64" "setup" "f.exe"
    CreateAsset.envSample id 7 "a" "b" "win32-x64" "stable" "deadbeef" rfl rfl rfl

/-- C9: publisher CLI contract.  With a number of positional arguments
other than 6 after the program name the process prints the usage message
and exits with status -1; with correct arity the exit code is 0 when
`main()` resolves (including the already-published no-op path) and 1 when
it rejects. -/
theorem C9_cli_contract :
    (∀ node script rest m, rest.length ≠ 6 →
      CreateAsset.createAssetScript (node :: script :: rest) m = (-1, true)) ∧
    (∀ argv, argv.length = 8 →
      CreateAsset.createAssetScript argv (.ok ()) = (0, false)) ∧
    (∀ argv e, argv.length = 8 →
      CreateAsset.createAssetScript argv (.error e) = (1, false)) ∧
    (∀ node script rest product os arch ty fileName env upath sz h1 h2 platform
        quality commit, rest.length = 6 →
      CreateAsset.getPlatform product os arch ty = .ok platform →
      env "VSCODE_QUALITY" = some quality →
      env "BUILD_SOURCEVERSION" = some commit →
      CreateAsset.createAssetScript (node :: script :: rest)
        (CreateAsset.mainRun product os arch ty fileName env upath sz h1 h2
          true).outcome = (0, false)) := by
  refine ⟨?_, ?_, ?_, ?_⟩
  · intro node script rest m h
    unfold CreateAsset.createAssetScript
    rw [if_pos (by simpa using h)]
  · intro argv h
    unfold CreateAsset.createAssetScript
    rw [if_neg (by simp [h])]
  · intro argv e h
    unfold CreateAsset.createAssetScript
    rw [if_neg (by simp [h])]
  · intro node script rest product os arch ty fileName env upath sz h1 h2
      platform quality commit hlen hok hq hc
    have houtcome : (CreateAsset.mainRun product os arch ty fileName env upath
        sz h1 h2 true).outcome = .ok () := by
      unfold CreateAsset.mainRun
      rw [hok, hq, hc]
      simp
    rw [houtcome]
    unfold CreateAsset.createAssetScript
    rw [if_neg (by simp [hlen])]

/-- Witness for C9: wrong arity (5 positional arguments) exits -1 with the
usage message, and correct arity with a resolved `main()` exits 0. -/
theorem C9_cli_contract_witness :
    CreateAsset.createAssetScript ["node", "createAsset.js", "client", "win32",
      "x64", "setup", "f.exe"] (.ok ()) = (-1, true) ∧
    CreateAsset.createAssetScript ["node", "createAsset.js", "client", "win32",
      "x64", "setup", "f.exe", "/tmp/f.exe"] (.ok ()) = (0, false) :=
  ⟨C9_cli_contract.1 "node" "createAsset.js"
      ["client", "win32", "x64", "setup", "f.exe"] (.ok ()) (by decide),
    C9_cli_contract.2.1 ["node", "createAsset.js", "client", "win32", "x64",
      "setup", "f.exe", "/tmp/f.exe"] (by decide)⟩

/-- C10 counterexample: the claim quantifies over every `(product, os,
arch, type)` on which `getPlatform` succeeds, but an `arch` argument that
itself contains `win32` makes a non-Windows platform string contain the
substring `win32`: `getPlatform('client','linux','win32','snap')` succeeds
with `'linux-snap-win32'`, which contains `win32` although the os argument
is not `'win32'`, so the asset record would carry `supportsFastUpdate`. -/
theorem C10_fastUpdate_counterexample :
    CreateAsset.getPlatform "client" "linux" "win32" "snap" =
      .ok "linux-snap-win32" ∧
    CreateAsset.containsWin32 "linux-snap-win32" = true ∧
    "linux" ≠ "win32" ∧
    (CreateAsset.mainRun "client" "linux" "win32" "snap" "f.tar.gz"
        CreateAsset.envSample id 7 "a" "b" false).asset.map
      CreateAsset.Asset.supportsFastUpdate = some true :=
  ⟨rfl, by decide, by decide, rfl⟩

/-- C10 (amended): for every input on which `getPlatform` succeeds and
whose `arch` argument does not itself contain the substring `win32`, the
asset record's `supportsFastUpdate` flag is present (and true) iff the os
argument was `win32`: every platform string returned for os = `win32`
contains the substring `win32`, and no platform string returned for any
other os contains it. -/
theorem C10_fastUpdate_iff_win32 :
    (∀ product os arch ty fileName env upath sz h1 h2 a,
      CreateAsset.containsWin32 arch = false →
      (CreateAsset.mainRun product os arch ty fileName env upath sz h1 h2
          false).asset = some a →
      (a.supportsFastUpdate = true ↔ os = "win32")) ∧
    (∀ product os arch ty p,
      CreateAsset.getPlatform product os arch ty = .ok p → os = "win32" →
      CreateAsset.containsWin32 p = true) ∧
    (∀ product os arch ty p,
      CreateAsset.containsWin32 arch = false →
      CreateAsset.getPlatform product os arch ty = .ok p → os ≠ "win32" →
      CreateAsset.containsWin32 p = false) := by
  refine ⟨?_, ?_, ?_⟩
  · intro product os arch ty fileName env upath sz h1 h2 a harch hasset
    unfold CreateAsset.mainRun at hasset
    rcases hg : CreateAsset.getPlatform product os arch ty with e | platform <;>
      rw [hg] at hasset
    · simp at hasset
    · have hchar := CreateAsset.containsWin32_getPlatform product os arch ty
        platform harch hg
      rcases hq : env "VSCODE_QUALITY" with _ | quality <;> rw [hq] at hasset
      · simp at hasset
      · rcases hc : env "BUILD_SOURCEVERSION" with _ | commit <;>
          rw [hc] at hasset
        · simp at hasset
        · simp only [if_neg (by simp : ¬(false = true))] at hasset
          rw [Option.some.injEq] at hasset
          subst hasset
          simp only [hchar]
          constructor
          · intro hb
            exact beq_iff_eq.mp hb
          · intro hb
            exact beq_iff_eq.mpr hb
  · intro product os arch ty p hok hos
    subst hos
    unfold CreateAsset.getPlatform at hok
    split_ifs at hok <;>
      simp only [Except.ok.injEq, reduceCtorEq] at hok <;>
      subst hok <;> subst_vars <;>
      first
        | decide
        | (apply CreateAsset.containsWin32_true_append
           first
             | decide
             | (apply CreateAsset.containsWin32_true_append; decide))
        | (exfalso; simp_all)
  · intro product os arch ty p harch hok hos
    have h := CreateAsset.containsWin32_getPlatform product os arch ty p harch hok
    rw [h]
    exact beq_eq_false_iff_ne.mpr hos

/-- Witness for C10 (amended): evaluated at client/win32/x64/archive
(flag present) and at client/linux/x64/snap (flag absent). -/
theorem C10_fastUpdate_iff_win32_witness :
    CreateAsset.containsWin32 "win32-x64-archive" = true ∧
    CreateAsset.containsWin32 "linux-snap-x64" = false :=
  ⟨C10_fastUpdate_iff_win32.2.1 "client" "win32" "x64" "archive"
      "win32-x64-archive" rfl rfl,
    C10_fastUpdate_iff_win32.2.2 "client" "linux" "x64" "snap"
      "linux-snap-x64" (by decide) rfl (by decide)⟩

namespace LocFunc

/-- Association-list model of a JavaScript object: its own enumerable
string-keyed properties in insertion order. -/
def JsObj (α : Type) : Type := List (String × α)

instance {α : Type} : Membership (String × α) (JsObj α) := by unfold JsObj; infer_instance

theorem lookup_cons_eq {α : Type} (k a : String) (v : α) (l : List (String × α)) :
    List.lookup k ((a, v) :: l) = if k = a then some v else List.lookup k l := by
  rw [List.lookup_cons]
  by_cases h : k = a
  · rw [if_pos h, beq_iff_eq.mpr h]
  · rw [if_neg h, beq_eq_false_iff_ne.mpr h]

/-- Overlay of JavaScript object spread `{...a, ...b}` on the entries of
`a`: keys of `a` keep their position, values are replaced by `b`'s value
when `b` has the key. -/
def overlayWith {α : Type} (b a : List (String × α)) : List (String × α) :=
  a.map (fun kv => (kv.1, (List.lookup kv.1 b).getD kv.2))

/-- Remaining entries of JavaScript object spread `{...a, ...b}`: entries
of `b` whose key is not in `a`, appended after `a`'s entries in `b`'s
order. -/
def spreadRest {α : Type} (a b : List (String × α)) : List (String × α) :=
  b.filter (fun kv => (List.lookup kv.1 a).isNone)

/-- JavaScript object spread `{...a, ...b}` on association lists. -/
def spreadMerge {α : Type} (a b : List (String × α)) : List (String × α) :=
  overlayWith b a ++ spreadRest a b

/-- JavaScript `s.startsWith(pre)` on the characters of the strings. -/
def jsStartsWith (s pre : String) : Bool := pre.data.isPrefixOf s.data

/-- The prune loop of `updateMainI18nFile` (locFunc.ts lines 72-76):
delete from the existing contents every key that starts with `sql` and has
no entry in the newly parsed message set. -/
def pruneSqlKeys {α : Type} (old newC : List (String × α)) : List (String × α) :=
  old.filter (fun kv => !(jsStartsWith kv.1 "sql" && (List.lookup kv.1 newC).isNone))

/-- Contents produced by `updateMainI18nFile` (locFunc.ts lines 72-78):
prune stale `sql`-prefixed keys, then overlay the new message set via
`messages.contents = { ...objectContents, ...messages.contents }`. -/
def updateMainContents {α : Type} (old newC : List (String × α)) :
    List (String × α) :=
  spreadMerge (pruneSqlKeys old newC) newC

theorem lookup_overlayWith {α : Type} (b a : List (String × α)) (k : String) :
    List.lookup k (overlayWith b a) =
      (List.lookup k a).map (fun v => (List.lookup k b).getD v) := by
  induction a with
  | nil => rfl
  | cons x a ih =>
    obtain ⟨xk, xv⟩ := x
    simp only [overlayWith, List.map_cons] at *
    rw [lookup_cons_eq, lookup_cons_eq]
    by_cases h : k = xk <;> simp [h, ih]

theorem lookup_isSome_of_mem {α : Type} (l : List (String × α)) (kv : String × α)
    (h : kv ∈ l) : (List.lookup kv.1 l).isSome = true := by
  induction l with
  | nil => cases h
  | cons x l ih =>
    obtain ⟨xk, xv⟩ := x
    rw [lookup_cons_eq]
    rcases List.mem_cons.mp h with rfl | hm
    · simp
    · by_cases hk : kv.1 = xk <;> simp [hk, ih hm]

theorem lookup_of_mem_nodup {α : Type} (l : List (String × α))
    (hn : (l.map Prod.fst).Nodup) (kv : String × α) (h : kv ∈ l) :
    List.lookup kv.1 l = some kv.2 := by
  induction l with
  | nil => cases h
  | cons x l ih =>
    obtain ⟨xk, xv⟩ := x
    have hn2 : xk ∉ l.map Prod.fst ∧ (l.map Prod.fst).Nodup := by
      rw [List.map_cons] at hn
      exact List.nodup_cons.mp hn
    rw [lookup_cons_eq]
    rcases List.mem_cons.mp h with rfl | hm
    · simp
    · have hk : kv.1 ≠ xk := by
        intro he
        have hmem : kv.1 ∈ l.map Prod.fst := List.mem_map_of_mem _ hm
        rw [he] at hmem
        exact hn2.1 hmem
      rw [if_neg hk]
      exact ih hn2.2 hm

theorem lookup_filter_of_key {α : Type} (p : String × α → Bool)
    (l : List (String × α)) (k : String) (h : ∀ v, p (k, v) = true) :
    List.lookup k (l.filter p) = List.lookup k l := by
  induction l with
  | nil => rfl
  | cons x l ih =>
    obtain ⟨xk, xv⟩ := x
    by_cases hk : k = xk
    · subst hk
      rw [List.filter_cons, if_pos (by rw [h xv]), lookup_cons_eq, if_pos rfl,
        lookup_cons_eq, if_pos rfl]
    · rcases hp : p (xk, xv) with - | -
      · rw [List.filter_cons, if_neg (by rw [hp]; simp), lookup_cons_eq,
          if_neg hk, ih]
      · rw [List.filter_cons, if_pos (by rw [hp]), lookup_cons_eq, if_neg hk,
          lookup_cons_eq, if_neg hk, ih]

theorem lookup_filter_none_of_key {α : Type} (p : String × α → Bool)
    (l : List (String × α)) (k : String) (h : ∀ v, p (k, v) = false) :
    List.lookup k (l.filter p) = none := by
  induction l with
  | nil => rfl
  | cons x l ih =>
    obtain ⟨xk, xv⟩ := x
    by_cases hk : k = xk
    · subst hk
      rw [List.filter_cons, if_neg (by rw [h xv]; simp), ih]
    · rcases hp : p (xk, xv) with - | -
      · rw [List.filter_cons, if_neg (by rw [hp]; simp), ih]
      · rw [List.filter_cons, if_pos (by rw [hp]), lookup_cons_eq, if_neg hk, ih]

theorem lookup_filter_none {α : Type} (p : String × α → Bool)
    (l : List (String × α)) (k : String) (h : List.lookup k l = none) :
    List.lookup k (l.filter p) = none := by
  induction l with
  | nil => rfl
  | cons x l ih =>
    obtain ⟨xk, xv⟩ := x
    rw [lookup_cons_eq] at h
    by_cases hk : k = xk
    · rw [if_pos hk] at h
      cases h
    · rw [if_neg hk] at h
      rcases hp : p (xk, xv) with - | -
      · rw [List.filter_cons, if_neg (by rw [hp]; simp), ih h]
      · rw [List.filter_cons, if_pos (by rw [hp]), lookup_cons_eq, if_neg hk,
          ih h]

/-- Idempotence of the main-catalog contents merge: merging the same new
message set into the output of a previous merge with that set reproduces
the output unchanged (the new set's keys must be pairwise distinct, as the
keys of a parsed JavaScript object always are). -/
theorem updateMainContents_idem {α : Type} (old n : List (String × α))
    (hn : (n.map Prod.fst).Nodup) :
    updateMainContents (updateMainContents old n) n =
      updateMainContents old n := by
  have hA : pruneSqlKeys (updateMainContents old n) n = updateMainContents old n := by
    unfold pruneSqlKeys
    apply List.filter_eq_self.mpr
    intro kv hkv
    unfold updateMainContents spreadMerge at hkv
    rcases List.mem_append.mp hkv with hm | hm
    · unfold overlayWith at hm
      rcases List.mem_map.mp hm with ⟨kw, hkw, rfl⟩
      unfold pruneSqlKeys at hkw
      have h2 := (List.mem_filter.mp hkw).2
      simpa using h2
    · unfold spreadRest at hm
      have hkn := (List.mem_filter.mp hm).1
      have hs := lookup_isSome_of_mem n kv hkn
      rcases hlook : List.lookup kv.1 n with - | w
      · rw [hlook] at hs; simp at hs
      · simp [hlook]
  have hB : overlayWith n (updateMainContents old n) = updateMainContents old n := by
    unfold overlayWith
    have hcong : ∀ kv ∈ updateMainContents old n,
        (fun kv : String × α => (kv.1, (List.lookup kv.1 n).getD kv.2)) kv = id kv := by
      intro kv hkv
      unfold updateMainContents spreadMerge at hkv
      rcases List.mem_append.mp hkv with hm | hm
      · unfold overlayWith at hm
        rcases List.mem_map.mp hm with ⟨kw, hkw, rfl⟩
        rcases hlook : List.lookup kw.1 n with - | w <;> simp [hlook]
      · unfold spreadRest at hm
        have hkn := (List.mem_filter.mp hm).1
        have hl := lookup_of_mem_nodup n hn kv hkn
        simp [hl]
    rw [List.map_congr_left hcong, List.map_id]
  have hC : spreadRest (updateMainContents old n) n = [] := by
    unfold spreadRest
    rw [List.filter_eq_nil_iff]
    intro kv hkv
    have hs : (List.lookup kv.1 (updateMainContents old n)).isSome = true := by
      unfold updateMainContents spreadMerge
      rw [List.lookup_append, lookup_overlayWith]
      rcases hlp : List.lookup kv.1 (pruneSqlKeys old n) with - | w
      · have hmem : kv ∈ spreadRest (pruneSqlKeys old n) n := by
          unfold spreadRest
          rw [List.mem_filter]
          exact ⟨hkv, by rw [hlp]; rfl⟩
        have hsm := lookup_isSome_of_mem _ kv hmem
        rcases hlr : List.lookup kv.1 (spreadRest (pruneSqlKeys old n) n) with - | u
        · rw [hlr] at hsm; simp at hsm
        · simp [hlr]
      · simp
    rcases hl : List.lookup kv.1 (updateMainContents old n) with - | w
    · rw [hl] at hs; simp at hs
    · simp [hl]
  calc updateMainContents (updateMainContents old n) n
      = overlayWith n (pruneSqlKeys (updateMainContents old n) n) ++
        spreadRest (pruneSqlKeys (updateMainContents old n) n) n := rfl
    _ = overlayWith n (updateMainContents old n) ++
        spreadRest (updateMainContents old n) n := by rw [hA]
    _ = updateMainContents old n ++ [] := by rw [hB, hC]
    _ = updateMainContents old n := by simp

/-- JSON string escaping for the characters JSON.stringify must escape in
the catalog data. -/
def jsonEscapeChar (c : Char) : String :=
  if c = '"' then "\\\"" else if c = '\\' then "\\\\"
  else if c = '\n' then "\\n" else if c = '\r' then "\\r"
  else if c = '\t' then "\\t" else String.singleton c

def jsonStr (s : String) : String :=
  "\"" ++ String.join (s.data.map jsonEscapeChar) ++ "\""

def tabs (n : Nat) : String := String.mk (List.replicate n '\t')

/-- Rendering of a JSON array of strings as JSON.stringify(·, null, tab)
renders it at nesting level `lvl`. -/
def jsonArrayStr (lvl : Nat) (xs : List String) : String :=
  if xs.isEmpty then "[]"
  else "[\n" ++
    String.intercalate ",\n" (xs.map (fun x => tabs (lvl + 1) ++ jsonStr x)) ++
    "\n" ++ tabs lvl ++ "]"

/-- Rendering of a JSON object with pre-rendered field values as
JSON.stringify(·, null, tab) renders it at nesting level `lvl`. -/
def jsonObjStr (lvl : Nat) (fields : List (String × String)) : String :=
  if fields.isEmpty then "\x7b\x7d"
  else "\x7b\n" ++
    String.intercalate ",\n"
      (fields.map (fun kv => tabs (lvl + 1) ++ jsonStr kv.1 ++ ": " ++ kv.2)) ++
    "\n" ++ tabs lvl ++ "\x7d"

def renderMsgMap (lvl : Nat) (m : List (String × String)) : String :=
  jsonObjStr lvl (m.map (fun kv => (kv.1, jsonStr kv.2)))

def renderContents (lvl : Nat) (c : List (String × List (String × String))) :
    String :=
  jsonObjStr lvl (c.map (fun kv => (kv.1, renderMsgMap (lvl + 1) kv.2)))

/-- Model of an `i18n.I18nPack` (`{ version, contents }`), as built by
`modifyI18nPackFiles` for the main pack and the extension packs. -/
structure I18nPackModel where
  version : Nat
  contents : List (String × List (String × String))

/-- License header block prepended under the empty-string key by
`updateMainI18nFile` (locFunc.ts lines 79-85). -/
def i18nHeader : List String := [
  "--------------------------------------------------------------------------------------------",
  "Copyright (c) Microsoft Corporation. All rights reserved.",
  "Licensed under the MIT License. See License.txt in the project root for license information.",
  "--------------------------------------------------------------------------------------------",
  "Do not edit this file. It is machine generated."]

/-- CRLF normalization `content.replace(/\n/g, '\r\n')` performed on win32
(locFunc.ts lines 91-93). -/
def crlfNormalize (s : String) : String :=
  String.join (s.data.map (fun c => if c = '\n' then "\r\n" else String.singleton c))

/-- Shallow embedding of `updateMainI18nFile` from locFunc.ts (lines
64-99), producing the serialized catalog content of the emitted file: the
existing on-disk contents are pruned of stale `sql`-prefixed keys, the new
message set is overlaid, and the result is serialized with the fixed
header block, tab indentation, and CRLF normalization when
`process.platform` is win32. -/
def updateMainI18nFile (existingContents : List (String × List (String × String)))
    (pack : I18nPackModel) (isWin32 : Bool) : String :=
  let merged := updateMainContents existingContents pack.contents
  let content := jsonObjStr 0 [("", jsonArrayStr 1 i18nHeader),
    ("version", toString pack.version), ("contents", renderContents 1 merged)]
  if isWin32 then crlfNormalize content else content

/-- Index of the first occurrence of `c` in a character list. -/
def idxOfAux (c : Char) : List Char → Option Nat
  | [] => none
  | x :: xs => if x = c then some 0 else (idxOfAux c xs).map (· + 1)

/-- JavaScript `s.indexOf(c, fromIdx)`: index of the first occurrence of
`c` at position `fromIdx` or later, and -1 when there is none. -/
def jsIndexOfFrom (s : String) (c : Char) (fromIdx : Nat) : Int :=
  match idxOfAux c (s.data.drop fromIdx) with
  | some i => Int.ofNat (fromIdx + i)
  | none => -1

/-- JavaScript `s.substr(start)` for the non-negative `start` values the
routing step produces. -/
def jsSubstr (s : String) (start : Int) : String :=
  String.mk (s.data.drop start.toNat)

/-- JavaScript object property assignment `obj[k] = v`: replaces the value
in place when the key already exists, appends the property otherwise. -/
def jsAssign {α : Type} : List (String × α) → String → α → List (String × α)
  | [], k, v => [(k, v)]
  | (a, w) :: l, k, v =>
    if a = k then (a, v) :: l else (a, w) :: jsAssign l k v

/-- Modelled from the spec: `i18n.i18nPackVersion` (build/lib/i18n.ts is
not under src/), the fixed schema version tag carried by every catalog. -/
def i18nPackVersion : Nat := 1

/-- Accumulator state of `modifyI18nPackFiles`: the main pack's contents
and the per-extension packs (`extensionsPacks`), both in insertion order. -/
structure PacksState where
  mainContents : List (String × List (String × String))
  extensionsPacks : List (String × I18nPackModel)

/-- The existing pack for `res` in `extensionsPacks`, or the fresh pack
created by `modifyI18nPackFiles` (locFunc.ts lines 125-128) when absent. -/
def extPackOf (st : PacksState) (res : String) : I18nPackModel :=
  match List.lookup res st.extensionsPacks with
  | some p => p
  | none => { version := i18nPackVersion, contents := [] }

/-- Shallow embedding of the routing step of `modifyI18nPackFiles`
(locFunc.ts lines 119-135): one resolved message file with origin resource
`resource`, original file path `origPath` and message map `messages` is
inserted into the main pack (when the resource is the reserved core
identifier `sql`) under the path after the first slash, or into the
resource's own extension pack under the path after the second slash. -/
def routeParsedFile (resource : String) (st : PacksState) (origPath : String)
    (messages : List (String × String)) : PacksState :=
  let firstSlash := jsIndexOfFrom origPath '/' 0
  if resource ≠ "sql" then
    let extPack := extPackOf st resource
    let secondSlash := jsIndexOfFrom origPath '/' (firstSlash + 1).toNat
    let newContents :=
      jsAssign extPack.contents (jsSubstr origPath (secondSlash + 1)) messages
    let newPack : I18nPackModel := { extPack with contents := newContents }
    { st with extensionsPacks := jsAssign st.extensionsPacks resource newPack }
  else
    let newMain :=
      jsAssign st.mainContents (jsSubstr origPath (firstSlash + 1)) messages
    { st with mainContents := newMain }

theorem idxOfAux_append (aL rest : List Char) (h : '/' ∉ aL) :
    idxOfAux '/' (aL ++ '/' :: rest) = some aL.length := by
  induction aL with
  | nil => simp [idxOfAux]
  | cons x aL ih =>
    have hx : x ≠ '/' := fun he => h (he ▸ List.mem_cons_self x aL)
    rw [List.cons_append]
    unfold idxOfAux
    rw [if_neg hx, ih (fun hm => h (List.mem_cons_of_mem _ hm))]
    simp

theorem data_split_one (a r : String) :
    (a ++ "/" ++ r).data = a.data ++ '/' :: r.data := by
  rw [String.data_append, String.data_append]
  simp [show ("/" : String).data = ['/'] from rfl]

theorem jsIndexOfFrom_first (a r : String) (h : '/' ∉ a.data) :
    jsIndexOfFrom (a ++ "/" ++ r) '/' 0 = Int.ofNat a.data.length := by
  unfold jsIndexOfFrom
  rw [data_split_one, List.drop_zero, idxOfAux_append a.data r.data h]
  simp

theorem jsSubstr_strip_one (a r : String) (h : '/' ∉ a.data) :
    jsSubstr (a ++ "/" ++ r) (jsIndexOfFrom (a ++ "/" ++ r) '/' 0 + 1) = r := by
  rw [jsIndexOfFrom_first a r h]
  unfold jsSubstr
  rw [data_split_one]
  have e1 : (Int.ofNat a.data.length + 1).toNat = a.data.length + 1 := rfl
  rw [e1]
  have e2 : a.data ++ '/' :: r.data = (a.data ++ ['/']) ++ r.data := by simp
  have e3 : a.data.length + 1 = (a.data ++ ['/']).length := by simp
  rw [e2, e3, List.drop_left]

theorem drop_past_first (a r : String) :
    (a ++ "/" ++ r).data.drop (a.data.length + 1) = r.data := by
  rw [data_split_one]
  have e2 : a.data ++ '/' :: r.data = (a.data ++ ['/']) ++ r.data := by simp
  have e3 : a.data.length + 1 = (a.data ++ ['/']).length := by simp
  rw [e2, e3, List.drop_left]

theorem jsIndexOfFrom_second (a b r : String) (ha : '/' ∉ a.data)
    (hb : '/' ∉ b.data) :
    jsIndexOfFrom (a ++ "/" ++ b ++ "/" ++ r) '/'
      (jsIndexOfFrom (a ++ "/" ++ b ++ "/" ++ r) '/' 0 + 1).toNat =
      Int.ofNat (a.data.length + 1 + b.data.length) := by
  have hassoc : a ++ "/" ++ b ++ "/" ++ r = a ++ "/" ++ (b ++ "/" ++ r) := by
    simp [String.ext_iff, data_split_one, String.data_append]
  rw [hassoc, jsIndexOfFrom_first a (b ++ "/" ++ r) ha]
  have e1 : (Int.ofNat a.data.length + 1).toNat = a.data.length + 1 := rfl
  rw [e1]
  unfold jsIndexOfFrom
  rw [drop_past_first a (b ++ "/" ++ r), data_split_one,
    idxOfAux_append b.data r.data hb]

theorem jsSubstr_strip_two (a b r : String) (ha : '/' ∉ a.data)
    (hb : '/' ∉ b.data) :
    jsSubstr (a ++ "/" ++ b ++ "/" ++ r)
      (jsIndexOfFrom (a ++ "/" ++ b ++ "/" ++ r) '/'
        (jsIndexOfFrom (a ++ "/" ++ b ++ "/" ++ r) '/' 0 + 1).toNat + 1) = r := by
  rw [jsIndexOfFrom_second a b r ha hb]
  unfold jsSubstr
  have e1 : (Int.ofNat (a.data.length + 1 + b.data.length) + 1).toNat =
      a.data.length + 1 + b.data.length + 1 := rfl
  rw [e1]
  have hassoc : a ++ "/" ++ b ++ "/" ++ r = a ++ "/" ++ (b ++ "/" ++ r) := by
    simp [String.ext_iff, data_split_one, String.data_append]
  rw [hassoc, data_split_one, data_split_one]
  have e2 : a.data ++ '/' :: (b.data ++ '/' :: r.data) =
      ((a.data ++ ['/']) ++ (b.data ++ ['/'])) ++ r.data := by simp
  have e3 : a.data.length + 1 + b.data.length + 1 =
      ((a.data ++ ['/']) ++ (b.data ++ ['/'])).length := by simp; omega
  rw [e2, e3, List.drop_left]

/-- Entry of a descriptor's `localization.translations` array. -/
structure Translation where
  id : String
  path : String
  deriving Repr, DecidableEq

/-- Translation-path record pushed by `modifyI18nPackFiles` (locFunc.ts
line 152): `{ id: extension, resourceName: extensions/….i18n.json }`. -/
structure TranslationPath where
  id : String
  resourceName : String
  deriving Repr, DecidableEq

/-- The path derived from a record in `refreshLangpacks` (line 324):
`./translations/${tp.resourceName}`. -/
def finalPathOf (tp : TranslationPath) : String :=
  "./translations/" ++ tp.resourceName

/-- The in-place overwrite half of the upsert loop (lines 326-332):
overwrite the `id` of the first entry whose `path` matches, leave all
other entries and fields untouched. -/
def replaceFirstId : List Translation → String → String → List Translation
  | [], _, _ => []
  | t :: rest, p, newId =>
    if t.path = p then { t with id := newId } :: rest
    else t :: replaceFirstId rest p newId

/-- Shallow embedding of the upsert of one translation-path record into a
descriptor's translations array (refreshLangpacks, locFunc.ts lines
323-336): overwrite the `id` of the first entry with the derived path, or
append a new `{id, path}` entry when no entry has that path. -/
def upsertTranslation (ts : List Translation) (tp : TranslationPath) :
    List Translation :=
  if ts.any (fun t => t.path = finalPathOf tp) then
    replaceFirstId ts (finalPathOf tp) tp.id
  else ts ++ [{ id := tp.id, path := finalPathOf tp }]

/-- The whole upsert loop, over all records of a batch in order. -/
def reconcileTranslations (ts : List Translation)
    (tps : List TranslationPath) : List Translation :=
  tps.foldl upsertTranslation ts

theorem replaceFirstId_decomp (pre : List Translation) (t : Translation)
    (post : List Translation) (p newId : String)
    (hpre : ∀ u ∈ pre, u.path ≠ p) (ht : t.path = p) :
    replaceFirstId (pre ++ t :: post) p newId =
      pre ++ { t with id := newId } :: post := by
  induction pre with
  | nil => simp [replaceFirstId, ht]
  | cons u pre ih =>
    rw [List.cons_append, replaceFirstId.eq_def]
    simp only []
    rw [if_neg (hpre u (List.mem_cons_self u pre)),
      ih (fun w hw => hpre w (List.mem_cons_of_mem _ hw))]
    rfl

theorem replaceFirstId_map_path (ts : List Translation) (p newId : String) :
    (replaceFirstId ts p newId).map Translation.path =
      ts.map Translation.path := by
  induction ts with
  | nil => rfl
  | cons t ts ih =>
    rw [replaceFirstId.eq_def]
    simp only []
    by_cases h : t.path = p
    · rw [if_pos h]
      simp
    · rw [if_neg h]
      simp [ih]

theorem upsertTranslation_paths_nodup (ts : List Translation)
    (tp : TranslationPath) (h : (ts.map Translation.path).Nodup) :
    ((upsertTranslation ts tp).map Translation.path).Nodup := by
  unfold upsertTranslation
  by_cases hany : ts.any (fun t => t.path = finalPathOf tp)
  · rw [if_pos hany, replaceFirstId_map_path]
    exact h
  · rw [if_neg hany, List.map_append]
    simp only [List.map_cons, List.map_nil]
    rw [List.nodup_append]
    refine ⟨h, List.nodup_singleton _, ?_⟩
    intro q hq
    simp only [List.mem_singleton]
    intro he
    apply hany
    rcases List.mem_map.mp hq with ⟨u, hu, rfl⟩
    exact List.any_eq_true.mpr ⟨u, hu, by simp [he]⟩

theorem reconcileTranslations_paths_nodup (tps : List TranslationPath)
    (ts : List Translation) (h : (ts.map Translation.path).Nodup) :
    ((reconcileTranslations ts tps).map Translation.path).Nodup := by
  induction tps generalizing ts with
  | nil => exact h
  | cons tp tps ih =>
    unfold reconcileTranslations at *
    rw [List.foldl_cons]
    exact ih _ (upsertTranslation_paths_nodup ts tp h)

/-- Replacement of the first occurrence of `pat` by `rep` in a character
list, as JavaScript `String.prototype.replace` with a string pattern does;
the list is returned unchanged when the pattern does not occur. -/
def replaceFirstL (pat rep : List Char) : List Char → List Char
  | [] => if pat.isEmpty then rep else []
  | x :: xs =>
    if pat.isPrefixOf (x :: xs) then rep ++ (x :: xs).drop pat.length
    else x :: replaceFirstL pat rep xs

/-- JavaScript `s.replace(pat, rep)` with a string pattern: replaces only
the first occurrence. -/
def jsReplaceFirst (s pat rep : String) : String :=
  String.mk (replaceFirstL pat.data rep.data s.data)

/-- Model of a vinyl `File` queued into the gulp stream: path and
serialized contents. -/
structure VFileModel where
  path : String
  contents : String
  deriving Repr, DecidableEq

/-- Modelled from the spec: `i18n.createI18nFile` (build/lib/i18n.ts is
not under src/); per the spec an extension catalog is regenerated each run
from only the newly parsed data and serialized with the fixed header block
into `originalFilePath + '.i18n.json'`. -/
def createI18nFile (originalFilePath : String) (pack : I18nPackModel) :
    VFileModel :=
  let contents := jsonObjStr 0 [("", jsonArrayStr 1 i18nHeader),
    ("version", toString pack.version), ("contents", renderContents 1 pack.contents)]
  { path := originalFilePath ++ ".i18n.json", contents := contents }

/-- Shallow embedding of the flush stage of `modifyI18nPackFiles`
(locFunc.ts lines 140-159): once every parse promise has settled, if the
accumulated error list is non-empty the batch fails (the stream emits the
error and queues nothing); otherwise the merged main catalog file and one
file per extension catalog are queued and the `{id, resourceName}` records
are pushed for the caller. -/
def packFlush (errors : List String)
    (existingMainContents : List (String × List (String × String)))
    (mainPack : I18nPackModel) (extensionsPacks : List (String × I18nPackModel))
    (isWin32 : Bool) :
    Except (List String) (List VFileModel × List TranslationPath) :=
  if errors.length > 0 then .error errors
  else
    let mainFile : VFileModel :=
      { path := "./main.i18n.json",
        contents := updateMainI18nFile existingMainContents mainPack isWin32 }
    let extFiles := extensionsPacks.map
      (fun ep => createI18nFile ("extensions/" ++ ep.1) ep.2)
    let tps := extensionsPacks.map
      (fun ep => TranslationPath.mk ep.1 ("extensions/" ++ ep.1 ++ ".i18n.json"))
    .ok (mainFile :: extFiles, tps)

/-- Stale-entry pruning of `refreshLangpacks` (locFunc.ts lines 308-322):
entries whose referenced translation file no longer exists are spliced
out; `fileExists` abstracts `fs.statSync` on the path relative to the
translation data folder. -/
def pruneStale (translations : List Translation) (fileExists : String → Bool) :
    List Translation :=
  translations.filter (fun t => fileExists (jsReplaceFirst t.path "./translations" ""))

/-- The `end` handler of `refreshLangpacks` (locFunc.ts lines 306-339):
when the stream errored, `translationPaths` was set to `undefined` and the
whole reconciliation (stale pruning, upsert, writing package.json) is
skipped — `none` means the descriptor file is not written. -/
def descriptorEndStep (translationPaths : Option (List TranslationPath))
    (translations : List Translation) (fileExists : String → Bool) :
    Option (List Translation) :=
  match translationPaths with
  | none => none
  | some tps => some (reconcileTranslations (pruneStale translations fileExists) tps)

/-- Composition of the merge stage and the descriptor reconciliation for
one language of `refreshLangpacks` (locFunc.ts lines 290-339): the files
written to the translation folder, and the translations array persisted
into package.json (`none` when nothing is written). -/
def processLanguage (errors : List String)
    (existingMainContents : List (String × List (String × String)))
    (mainPack : I18nPackModel) (extensionsPacks : List (String × I18nPackModel))
    (isWin32 : Bool) (translations : List Translation)
    (fileExists : String → Bool) :
    List VFileModel × Option (List Translation) :=
  match packFlush errors existingMainContents mainPack extensionsPacks isWin32 with
  | .error _ => ([], none)
  | .ok (files, tps) => (files, descriptorEndStep (some tps) translations fileExists)

/-- Extension allow-list `VSCODEExtensions` of locFunc.ts lines 174-211. -/
def VSCODEExtensions : List String := ["bat", "builtin-notebook-renderers",
  "configuration-editing", "docker", "git-base", "github",
  "github-authentication", "ipynb", "javascript", "json",
  "json-language-features", "markdown", "markdown-language-features",
  "markdown-math", "media-preview", "merge-conflict",
  "microsoft-authentication", "powershell", "python", "r", "search-result",
  "simple-browser", "sql", "theme-abyss", "theme-defaults",
  "theme-kimbie-dark", "theme-monokai", "theme-monokai-dimmed",
  "theme-quietlight", "theme-red", "vscode-theme-seti",
  "theme-solarized-dark", "theme-solarized-light",
  "theme-tomorrow-night-blue", "xml", "yaml"]

/-- The normalization of `renameVscodeLangpacks` (locFunc.ts line 386):
`extensionFileName.replace('ms-vscode.', 'vscode.').replace('vscode.', '')`. -/
def shortExtensionFileName (extensionFileName : String) : String :=
  jsReplaceFirst (jsReplaceFirst extensionFileName "ms-vscode." "vscode.")
    "vscode." ""

/-- The XLIFF file name probed on disk for a translation file (line 387). -/
def xlfFileNameOf (extensionFileName : String) : String :=
  jsReplaceFirst (shortExtensionFileName extensionFileName) ".i18n.json" ".xlf"

/-- The normalized short name compared against the allow-list (line 388). -/
def allowListNameOf (extensionFileName : String) : String :=
  jsReplaceFirst (shortExtensionFileName extensionFileName) ".i18n.json" ""

/-- The per-file retention decision of `renameVscodeLangpacks` (locFunc.ts
lines 384-392): a translation file is kept exactly when its source XLIFF
file exists for the language (`xlfExists` abstracts `fs.existsSync` under
`resources/xlf/<langId>`) or its normalized short name is on the
allow-list; the source deletes it (`rimraf.sync`) otherwise. -/
def keepTranslationFile (xlfExists : String → Bool)
    (extensionFileName : String) : Bool :=
  xlfExists (xlfFileNameOf extensionFileName) ||
    VSCODEExtensions.contains (allowListNameOf extensionFileName)

/-- Files surviving the pruning loop over the extensions directory. -/
def keptTranslationFiles (xlfExists : String → Bool) (files : List String) :
    List String :=
  files.filter (keepTranslationFile xlfExists)

/-- Files removed by the pruning loop over the extensions directory. -/
def deletedTranslationFiles (xlfExists : String → Bool) (files : List String) :
    List String :=
  files.filter (fun f => !(keepTranslationFile xlfExists f))

end LocFunc

/-- C2: main-catalog prune and overlay.  For every key of the existing
main catalog contents: if it starts with the reserved `sql` prefix and the
new message set has no entry for it, the key is absent from the output;
if it does not start with the prefix, it is preserved, with the new set's
value when the new set has one and its old value otherwise. -/
theorem C2_main_catalog_prune {α : Type} (old newC : List (String × α))
    (key : String) :
    (LocFunc.jsStartsWith key "sql" = true → List.lookup key newC = none →
      List.lookup key (LocFunc.updateMainContents old newC) = none) ∧
    (LocFunc.jsStartsWith key "sql" = false → ∀ v, List.lookup key old = some v →
      List.lookup key (LocFunc.updateMainContents old newC) =
        some ((List.lookup key newC).getD v)) := by
  constructor
  · intro hsql hnew
    unfold LocFunc.updateMainContents LocFunc.spreadMerge
    rw [List.lookup_append, LocFunc.lookup_overlayWith]
    have h1 : List.lookup key (LocFunc.pruneSqlKeys old newC) = none := by
      unfold LocFunc.pruneSqlKeys
      apply LocFunc.lookup_filter_none_of_key
      intro v
      simp [hsql, hnew]
    have h2 : List.lookup key
        (LocFunc.spreadRest (LocFunc.pruneSqlKeys old newC) newC) = none := by
      unfold LocFunc.spreadRest
      exact LocFunc.lookup_filter_none _ _ _ hnew
    rw [h1, h2]
    rfl
  · intro hsql v hv
    unfold LocFunc.updateMainContents LocFunc.spreadMerge
    rw [List.lookup_append, LocFunc.lookup_overlayWith]
    have h1 : List.lookup key (LocFunc.pruneSqlKeys old newC) = some v := by
      unfold LocFunc.pruneSqlKeys
      rw [LocFunc.lookup_filter_of_key _ _ _ (fun w => by simp [hsql])]
      exact hv
    rw [h1]
    rfl

/-- Witness for C2: in a catalog with a stale `sql/gone` key and an
untouched `vs/keep` key, merging `[("sql/new", 3)]` removes `sql/gone` and
preserves `vs/keep` with its old value. -/
theorem C2_main_catalog_prune_witness :
    List.lookup "sql/gone"
      (LocFunc.updateMainContents [("sql/gone", 1), ("vs/keep", 2)]
        [("sql/new", 3)]) = none ∧
    List.lookup "vs/keep"
      (LocFunc.updateMainContents [("sql/gone", 1), ("vs/keep", 2)]
        [("sql/new", 3)]) =
      some ((List.lookup "vs/keep" [("sql/new", 3)]).getD 2) :=
  ⟨(C2_main_catalog_prune [("sql/gone", 1), ("vs/keep", 2)] [("sql/new", 3)]
      "sql/gone").1 (by decide) (by decide),
    (C2_main_catalog_prune [("sql/gone", 1), ("vs/keep", 2)] [("sql/new", 3)]
      "vs/keep").2 (by decide) 2 (by decide)⟩

/-- C5: merge-failure atomicity.  When the accumulated XLIFF parse error
list is non-empty after all parse promises settle, the flush stage fails
with the collected errors and emits no catalog file, and the descriptor
reconciliation for that language is skipped entirely — no file is emitted
and the descriptor is not written. -/
theorem C5_merge_failure_atomicity (errors : List String)
    (existingMainContents : List (String × List (String × String)))
    (mainPack : LocFunc.I18nPackModel)
    (extensionsPacks : List (String × LocFunc.I18nPackModel)) (isWin32 : Bool)
    (translations : List LocFunc.Translation) (fileExists : String → Bool)
    (hne : errors ≠ []) :
    LocFunc.packFlush errors existingMainContents mainPack extensionsPacks
      isWin32 = .error errors ∧
    LocFunc.processLanguage errors existingMainContents mainPack
      extensionsPacks isWin32 translations fileExists = ([], none) := by
  have hpos : errors.length > 0 := List.length_pos.mpr hne
  have hflush : LocFunc.packFlush errors existingMainContents mainPack
      extensionsPacks isWin32 = .error errors := by
    unfold LocFunc.packFlush
    rw [if_pos hpos]
  refine ⟨hflush, ?_⟩
  unfold LocFunc.processLanguage
  rw [hflush]

/-- Witness for C5 with one parse error. -/
theorem C5_merge_failure_atomicity_witness :
    LocFunc.packFlush ["xlf parse error"] [] ⟨1, []⟩ [] false =
      .error ["xlf parse error"] ∧
    LocFunc.processLanguage ["xlf parse error"] [] ⟨1, []⟩ [] false
      [⟨"sql", "./translations/main.i18n.json"⟩] (fun _ => true) =
      ([], none) :=
  C5_merge_failure_atomicity ["xlf parse error"] [] ⟨1, []⟩ [] false
    [⟨"sql", "./translations/main.i18n.json"⟩] (fun _ => true) (by decide)

/-- C8: two-condition retention in the provenance rename.  A per-extension
translation file of the sibling vscode package is kept exactly when a
source XLIFF file for its normalized name exists for the language or its
normalized short name is on the VS Code extension allow-list, and deleted
exactly when neither condition holds. -/
theorem C8_two_condition_retention (xlfExists : String → Bool)
    (files : List String) (f : String) (hf : f ∈ files) :
    (f ∈ LocFunc.keptTranslationFiles xlfExists files ↔
      (xlfExists (LocFunc.xlfFileNameOf f) = true ∨
        LocFunc.allowListNameOf f ∈ LocFunc.VSCODEExtensions)) ∧
    (f ∈ LocFunc.deletedTranslationFiles xlfExists files ↔
      ¬(xlfExists (LocFunc.xlfFileNameOf f) = true ∨
        LocFunc.allowListNameOf f ∈ LocFunc.VSCODEExtensions)) := by
  unfold LocFunc.keptTranslationFiles LocFunc.deletedTranslationFiles
    LocFunc.keepTranslationFile
  constructor
  · rw [List.mem_filter]
    simp [hf, List.elem_iff]
  · rw [List.mem_filter]
    simp [hf, List.elem_iff]

/-- Witness for C8: with no XLIFF sources on disk, `vscode.bat.i18n.json`
is kept (short name `bat` is on the allow-list) and `vscode.foo.i18n.json`
is deleted. -/
theorem C8_two_condition_retention_witness :
    "vscode.bat.i18n.json" ∈ LocFunc.keptTranslationFiles (fun _ => false)
      ["vscode.bat.i18n.json", "vscode.foo.i18n.json"] ∧
    "vscode.foo.i18n.json" ∈ LocFunc.deletedTranslationFiles (fun _ => false)
      ["vscode.bat.i18n.json", "vscode.foo.i18n.json"] :=
  ⟨(C8_two_condition_retention (fun _ => false)
      ["vscode.bat.i18n.json", "vscode.foo.i18n.json"] "vscode.bat.i18n.json"
      (by decide)).1.mpr (by decide),
    (C8_two_condition_retention (fun _ => false)
      ["vscode.bat.i18n.json", "vscode.foo.i18n.json"] "vscode.foo.i18n.json"
      (by decide)).2.mpr (by decide)⟩

/-- C4: translation-path reconciliation upsert.  When the translations
array contains an entry whose path equals the record's derived path (the
decomposition picks the first such entry), only that entry's `id` field is
overwritten, its array position and every other entry are unchanged; when
no entry has the derived path, a new `{id, path}` entry is appended at the
end; and pairwise-distinct paths are preserved by the reconciliation of a
whole batch of records. -/
theorem C4_translation_upsert :
    (∀ (pre : List LocFunc.Translation) (t : LocFunc.Translation) post
        (tp : LocFunc.TranslationPath),
      (∀ u ∈ pre, u.path ≠ LocFunc.finalPathOf tp) →
      t.path = LocFunc.finalPathOf tp →
      LocFunc.upsertTranslation (pre ++ t :: post) tp =
        pre ++ { t with id := tp.id } :: post) ∧
    (∀ (ts : List LocFunc.Translation) (tp : LocFunc.TranslationPath),
      (∀ u ∈ ts, u.path ≠ LocFunc.finalPathOf tp) →
      LocFunc.upsertTranslation ts tp =
        ts ++ [{ id := tp.id, path := LocFunc.finalPathOf tp }]) ∧
    (∀ (ts : List LocFunc.Translation) (tps : List LocFunc.TranslationPath),
      (ts.map LocFunc.Translation.path).Nodup →
      ((LocFunc.reconcileTranslations ts tps).map
        LocFunc.Translation.path).Nodup) := by
  refine ⟨?_, ?_, ?_⟩
  · intro pre t post tp hpre ht
    unfold LocFunc.upsertTranslation
    rw [if_pos, LocFunc.replaceFirstId_decomp pre t post _ _ hpre ht]
    exact List.any_eq_true.mpr ⟨t, by simp, by simp [ht]⟩
  · intro ts tp h
    unfold LocFunc.upsertTranslation
    rw [if_neg]
    intro hx
    rcases List.any_eq_true.mp hx with ⟨u, hu, hp⟩
    simp only [decide_eq_true_eq] at hp
    exact h u hu hp
  · intro ts tps h
    exact LocFunc.reconcileTranslations_paths_nodup tps ts h

/-- Witness for C4: overwriting the id of an existing entry for
`./translations/extensions/x.i18n.json` in place, and appending an entry
with a novel path. -/
theorem C4_translation_upsert_witness :
    LocFunc.upsertTranslation
        ([] ++ ⟨"old", "./translations/extensions/x.i18n.json"⟩ ::
          [⟨"other", "./translations/main.i18n.json"⟩])
        ⟨"x", "extensions/x.i18n.json"⟩ =
      [] ++ ⟨"x", "./translations/extensions/x.i18n.json"⟩ ::
        [⟨"other", "./translations/main.i18n.json"⟩] ∧
    LocFunc.upsertTranslation [⟨"other", "./translations/main.i18n.json"⟩]
        ⟨"y", "extensions/y.i18n.json"⟩ =
      [⟨"other", "./translations/main.i18n.json"⟩] ++
        [⟨"y", "./translations/extensions/y.i18n.json"⟩] :=
  ⟨C4_translation_upsert.1 []
      ⟨"old", "./translations/extensions/x.i18n.json"⟩
      [⟨"other", "./translations/main.i18n.json"⟩]
      ⟨"x", "extensions/x.i18n.json"⟩ (by simp) (by decide),
    C4_translation_upsert.2.1 [⟨"other", "./translations/main.i18n.json"⟩]
      ⟨"y", "extensions/y.i18n.json"⟩ (by decide)⟩

/-- C3: XLIFF routing.  A parsed message file whose origin resource is the
reserved core identifier `sql` is inserted into the main catalog under its
original path with exactly one leading slash-delimited segment stripped,
leaving the extension catalogs untouched; a file of any other resource is
inserted into that resource's own extension catalog under its original
path with exactly two leading slash-delimited segments stripped, leaving
the main catalog untouched. -/
theorem C3_xliff_routing :
    (∀ (st : LocFunc.PacksState) (a r : String) msgs, '/' ∉ a.data →
      (LocFunc.routeParsedFile "sql" st (a ++ "/" ++ r) msgs).mainContents =
        LocFunc.jsAssign st.mainContents r msgs ∧
      (LocFunc.routeParsedFile "sql" st (a ++ "/" ++ r) msgs).extensionsPacks =
        st.extensionsPacks) ∧
    (∀ (st : LocFunc.PacksState) (res a b r : String) msgs, res ≠ "sql" →
      '/' ∉ a.data → '/' ∉ b.data →
      (LocFunc.routeParsedFile res st (a ++ "/" ++ b ++ "/" ++ r)
          msgs).mainContents = st.mainContents ∧
      (LocFunc.routeParsedFile res st (a ++ "/" ++ b ++ "/" ++ r)
          msgs).extensionsPacks =
        LocFunc.jsAssign st.extensionsPacks res
          ⟨(LocFunc.extPackOf st res).version,
            LocFunc.jsAssign (LocFunc.extPackOf st res).contents r msgs⟩) := by
  constructor
  · intro st a r msgs ha
    unfold LocFunc.routeParsedFile
    rw [if_neg (by simp)]
    refine ⟨?_, rfl⟩
    simp only []
    rw [LocFunc.jsSubstr_strip_one a r ha]
  · intro st res a b r msgs hres ha hb
    unfold LocFunc.routeParsedFile
    rw [if_pos hres]
    refine ⟨rfl, ?_⟩
    simp only []
    rw [LocFunc.jsSubstr_strip_two a b r ha hb]

/-- Witness for C3: a core file `sql/main.ts` lands in the main catalog
under `main.ts`; a `docker` file `docker/out/file.ts` lands in the docker
extension catalog under `file.ts`. -/
theorem C3_xliff_routing_witness :
    (LocFunc.routeParsedFile "sql" ⟨[], []⟩ ("sql" ++ "/" ++ "main.ts")
        [("k", "v")]).mainContents =
      LocFunc.jsAssign [] "main.ts" [("k", "v")] ∧
    (LocFunc.routeParsedFile "docker" ⟨[], []⟩
        ("docker" ++ "/" ++ "out" ++ "/" ++ "file.ts")
        [("k", "v")]).extensionsPacks =
      LocFunc.jsAssign [] "docker"
        ⟨(LocFunc.extPackOf ⟨[], []⟩ "docker").version,
          LocFunc.jsAssign (LocFunc.extPackOf ⟨[], []⟩ "docker").contents
            "file.ts" [("k", "v")]⟩ :=
  ⟨(C3_xliff_routing.1 ⟨[], []⟩ "sql" "main.ts" [("k", "v")] (by decide)).1,
    (C3_xliff_routing.2 ⟨[], []⟩ "docker" "docker" "out" "file.ts" [("k", "v")]
      (by decide) (by decide) (by decide)).2⟩

/-- C7: idempotent catalog merge.  Running `updateMainI18nFile` a second
time with the same parsed message set, reading as the existing on-disk
contents the merged contents produced by the first run, produces
byte-identical serialized catalog content. -/
theorem C7_catalog_merge_idempotent
    (old : List (String × List (String × String))) (pack : LocFunc.I18nPackModel)
    (isWin32 : Bool) (hn : (pack.contents.map Prod.fst).Nodup) :
    LocFunc.updateMainI18nFile (LocFunc.updateMainContents old pack.contents)
      pack isWin32 = LocFunc.updateMainI18nFile old pack isWin32 := by
  unfold LocFunc.updateMainI18nFile
  rw [LocFunc.updateMainContents_idem old pack.contents hn]

/-- Witness for C7 at a concrete catalog and message set. -/
theorem C7_catalog_merge_idempotent_witness :
    LocFunc.updateMainI18nFile
      (LocFunc.updateMainContents [("sql/a", [("k", "old")])]
        [("sql/b", [("m", "new")])])
      { version := 1, contents := [("sql/b", [("m", "new")])] } false =
    LocFunc.updateMainI18nFile [("sql/a", [("k", "old")])]
      { version := 1, contents := [("sql/b", [("m", "new")])] } false :=
  C7_catalog_merge_idempotent [("sql/a", [("k", "old")])]
    { version := 1, contents := [("sql/b", [("m", "new")])] } false (by decide)

/-- C1: platform-key derivation follows the fixed decision table:
`getPlatform('client','win32','ia32','setup')` returns `'win32'`;
`getPlatform('client','win32','x64','archive')` returns `'win32-x64-archive'`;
`getPlatform('server','win32','arm64','setup')` throws;
`getPlatform('client','darwin','x64','setup')` returns `'darwin'`; and every
combination outside the decision table makes `getPlatform` throw rather than
return a platform string. -/
theorem C1_getPlatform_decision_table :
    CreateAsset.getPlatform "client" "win32" "ia32" "setup" = .ok "win32" ∧
    CreateAsset.getPlatform "client" "win32" "x64" "archive" = .ok "win32-x64-archive" ∧
    (∃ e, CreateAsset.getPlatform "server" "win32" "arm64" "setup" = .error e) ∧
    CreateAsset.getPlatform "client" "darwin" "x64" "setup" = .ok "darwin" ∧
    (∀ product os arch ty, CreateAsset.platformTableSpec product os arch ty = false →
      ∃ e, CreateAsset.getPlatform product os arch ty = .error e) := by
  refine ⟨rfl, rfl, ⟨CreateAsset.unrecognizedMsg "server" "win32" "arm64" "setup", rfl⟩, rfl, ?_⟩
  intro product os arch ty h
  have h2 := CreateAsset.getPlatform_ok_iff_table product os arch ty
  rw [h] at h2
  cases hg : CreateAsset.getPlatform product os arch ty with
  | ok v => rw [hg] at h2; simp [Except.isOk, Except.toBool] at h2
  | error e => exact ⟨e, rfl⟩

/-- Witness for C1: the general "outside the table ⇒ throws" clause evaluated
at the concrete combination `('client','win32','x64','snap')`. -/
theorem C1_getPlatform_decision_table_witness :
    CreateAsset.platformTableSpec "client" "win32" "x64" "snap" = false ∧
    ∃ e, CreateAsset.getPlatform "client" "win32" "x64" "snap" = .error e :=
  ⟨by decide, C1_getPlatform_decision_table.2.2.2.2 "client" "win32" "x64" "snap" (by decide)⟩
